import Mathlib

/-!
Verification of the text-extraction-and-summarization pipeline of
`server/app.py` (frequency-based extractive summarizer).

The NLTK tokenizers (`sent_tokenize`, `word_tokenize`) and the English
stopword list are external library resources, not code of this repository;
the pipeline is therefore embedded parametrically over
  - a sentence tokenizer `st : String → List String`,
  - a word tokenizer `wt : String → List String`,
  - a stopword list `stop : List String`.
Concrete models of these externals (used for concrete scenarios) are
defined separately and marked as modelled from the spec.
-/

namespace DocUpdater

/-- Model of Python `str.strip()`: remove leading and trailing whitespace
characters from the character sequence. -/
def strip (s : String) : String :=
  String.mk (((s.data.dropWhile Char.isWhitespace).reverse.dropWhile Char.isWhitespace).reverse)

/-- Association-list lookup with default, modelling Python `dict.get(k, d)`
(and plain indexing when the key is known to be present). -/
def assocD {α β : Type} [DecidableEq α] : List (α × β) → α → β → β
  | [], _, d => d
  | (k', v) :: rest, k, d => if k' = k then v else assocD rest k d

/-- A character that the regex `[^a-zA-Z0-9]` of `normalize_word` keeps. -/
def isAsciiAlnum (c : Char) : Bool :=
  ('a' ≤ c && c ≤ 'z') || ('A' ≤ c && c ≤ 'Z') || ('0' ≤ c && c ≤ '9')

/-- Python `str.lower()` restricted to ASCII characters (the only ones that
survive the regex filter in `normalize_word`). -/
def lowerAscii (c : Char) : Char :=
  if 'A' ≤ c ∧ c ≤ 'Z' then Char.ofNat (c.toNat + 32) else c

/-- `normalize_word` from `server/app.py`:
`re.sub(r'[^a-zA-Z0-9]', '', w).lower()` — strip every character that is
not an ASCII letter or digit, then lowercase the remainder. -/
def normalize_word (w : String) : String :=
  String.mk ((w.data.filter isAsciiAlnum).map lowerAscii)

/-- One `freq[nw] += 1` step on an insertion-ordered association list,
modelling the `defaultdict(int)` update in `build_word_freq`. -/
def bump : List (String × ℕ) → String → List (String × ℕ)
  | [], k => [(k, 1)]
  | (k', v) :: rest, k => if k' = k then (k', v + 1) :: rest else (k', v) :: bump rest k

/-- `build_word_freq` from `server/app.py`: tokenize the text with the word
tokenizer, normalize each token, skip empty normalizations and stopwords,
and count the remaining normalized tokens. -/
def build_word_freq (stop : List String) (wt : String → List String) (text : String) :
    List (String × ℕ) :=
  (wt text).foldl
    (fun freq w =>
      let nw := normalize_word w
      if nw = "" then freq
      else if nw ∈ stop then freq
      else bump freq nw)
    []

/-- The numerator accumulated by the inner loop of `score_sentences`:
each raw token contributes its frequency-model count (tokens whose
normalization is empty are skipped by the `continue`). -/
def sentence_numerator (freq : List (String × ℕ)) (words : List String) : ℕ :=
  (words.map (fun w =>
    let nw := normalize_word w
    if nw = "" then 0 else assocD freq nw 0)).sum

/-- The per-sentence score of `score_sentences`, on an explicit token list:
`score / (len(words) + 1)` where `score` sums frequency counts.  (Stated
with `mkRat`; `sentence_score_tokens_eq_div` identifies it with the
division of the source.) -/
def sentence_score_tokens (freq : List (String × ℕ)) (words : List String) : ℚ :=
  mkRat (sentence_numerator freq words) (words.length + 1)

/-- The per-sentence score of `score_sentences` on a sentence string. -/
def sentence_score (wt : String → List String) (freq : List (String × ℕ)) (s : String) : ℚ :=
  sentence_score_tokens freq (wt s)

/-- `score_sentences` from `server/app.py`: the mapping
`{idx: score(sent) for idx, sent in enumerate(sentences)}` as an
insertion-ordered association list. -/
def score_sentences (wt : String → List String) (sentences : List String)
    (freq : List (String × ℕ)) : List (ℕ × ℚ) :=
  sentences.enum.map (fun p => (p.1, sentence_score wt freq p.2))

/-- `extractive_summarize` from `server/app.py`, parametric in the external
sentence tokenizer, word tokenizer and stopword list.  `sorted(..., reverse=True)`
is a stable sort, modelled by `List.insertionSort` with the reversed
comparison (Mathlib's insertion sort is stable in the same sense). -/
def extractive_summarize (st wt : String → List String) (stop : List String)
    (text : String) (max_sentences : ℕ) : String :=
  if text = "" ∨ (strip text).length < 50 then strip text
  else if (st text).length ≤ max_sentences then String.intercalate "\n\n" (st text)
  else if build_word_freq stop wt text = [] then
    String.intercalate "\n\n" ((st text).take max_sentences)
  else
    String.intercalate "\n\n"
      ((List.insertionSort (fun i j => i ≤ j)
          ((List.insertionSort
              (fun i j =>
                assocD (score_sentences wt (st text) (build_word_freq stop wt text)) j 0 ≤
                  assocD (score_sentences wt (st text) (build_word_freq stop wt text)) i 0)
              ((score_sentences wt (st text) (build_word_freq stop wt text)).map
                Prod.fst)).take max_sentences)).map
        (fun i => (st text).getD i ""))

/-- Remove leading and trailing whitespace characters from a character list. -/
def stripChars (cs : List Char) : List Char :=
  ((cs.dropWhile Char.isWhitespace).reverse.dropWhile Char.isWhitespace).reverse

/-- Worker for `sent_tokenize_model`: scan the character list, closing a
sentence at each period that is followed by a whitespace character. -/
def sentSplitAux : List Char → List Char → List String
  | [], acc => if acc.isEmpty then [] else [String.mk (stripChars acc.reverse)]
  | '.' :: c :: rest, acc =>
      if c.isWhitespace then
        String.mk (stripChars ('.' :: acc).reverse) :: sentSplitAux rest []
      else sentSplitAux (c :: rest) ('.' :: acc)
  | c :: rest, acc => sentSplitAux rest (c :: acc)

/-- Modelled from the spec: the locale-aware sentence tokenizer
(NLTK `sent_tokenize`, an external library resource absent from the
repository).  Splits the text at a sentence-final period followed by
whitespace, keeping the period with its sentence and trimming surrounding
whitespace, as punkt does on simple English prose. -/
def sent_tokenize_model (s : String) : List String :=
  sentSplitAux s.data []

/-- Emit one whitespace-delimited chunk as word tokens, separating a single
trailing period into its own token (as the NLTK treebank tokenizer does).
The argument is the chunk's characters in reverse order. -/
def emitToken : List Char → List String
  | [] => []
  | '.' :: rest =>
      if rest.isEmpty then ["."] else [String.mk rest.reverse, "."]
  | acc => [String.mk acc.reverse]

/-- Worker for `word_tokenize_model`: split at whitespace. -/
def wordSplitAux : List Char → List Char → List String
  | [], acc => emitToken acc
  | c :: rest, acc =>
      if c.isWhitespace then emitToken acc ++ wordSplitAux rest []
      else wordSplitAux rest (c :: acc)

/-- Modelled from the spec: the locale-aware word tokenizer
(NLTK `word_tokenize`, an external library resource absent from the
repository).  Splits at whitespace and detaches a sentence-final period as
its own token, as the treebank tokenizer does on simple English prose. -/
def word_tokenize_model (s : String) : List String :=
  wordSplitAux s.data []

/-- Modelled from the spec: the fixed English stopword set (NLTK
`stopwords.words("english")`, an external data resource absent from the
repository), restricted to the function words occurring in the concrete
scenarios considered here. -/
def STOPWORDS_model : List String :=
  ["a", "an", "and", "are", "at", "i", "in", "is", "it", "of",
   "on", "the", "to", "too", "was", "were"]

/-- The text handed to the summarizer by the route (`server/app.py`,
`summarize_route`): `(prompt_text + "\n\n" + extracted_text) if prompt_text
else extracted_text` — note an empty prompt string is falsy in Python. -/
def combined_text (prompt : Option String) (extracted : String) : String :=
  match prompt with
  | some p => if p = "" then extracted else p ++ "\n\n" ++ extracted
  | none => extracted

/-- The summary computed by `summarize_route` once non-empty text has been
extracted: `extractive_summarize(combined_text, max_sentences=4)`. -/
def summarize_route_summary (st wt : String → List String) (stop : List String)
    (prompt : Option String) (extracted : String) : String :=
  extractive_summarize st wt stop (combined_text prompt extracted) 4

/-!
### Text extraction (`extract_text*` in `server/app.py`)

The PDF and OCR libraries are external black boxes exposing `bytes → text`;
their behaviour on the request's bytes is modelled by oracle values:
`reader` is the outcome of `PyPDF2.PdfReader(...)` — either a failure or a
list of per-page outcomes of `page.extract_text()` (which may itself fail,
or return `None`, modelled as `Except String (Option String)`) — and `ocr`
is the outcome of `Image.open(...).convert("RGB")` followed by
`pytesseract.image_to_string` (any failure of either step collapsed into
the `Except`'s error case).
-/

/-- `extract_text_from_pdf_bytes` from `server/app.py`: on reader failure
return `""`; otherwise each failing page contributes `""` (as does a `None`
page text), the non-empty page texts are joined by newlines, and the result
is stripped. -/
def extract_text_from_pdf_bytes (reader : Except String (List (Except String (Option String)))) :
    String :=
  match reader with
  | .error _ => ""
  | .ok pages =>
    strip (String.intercalate "\n"
      (List.filter (fun t => ¬(t = ""))
        (pages.map (fun p =>
          match p with
          | .error _ => ""
          | .ok none => ""
          | .ok (some t) => t))))

/-- `extract_text_from_image_bytes` from `server/app.py`: `""` on any
decode or OCR failure, the stripped recognized text otherwise. -/
def extract_text_from_image_bytes (ocr : Except String String) : String :=
  match ocr with
  | .error _ => ""
  | .ok t => strip t

/-- `extract_text` from `server/app.py`: PDF media types use PDF extraction
when it yields text, image media types use OCR, everything else (including
a PDF type whose PDF extraction came back empty) falls through to PDF
extraction and then OCR. -/
def extract_text (mime_type : String)
    (reader : Except String (List (Except String (Option String))))
    (ocr : Except String String) : String :=
  if (mime_type = "application/pdf" ∨ mime_type = "application/x-pdf") ∧
      ¬(extract_text_from_pdf_bytes reader = "") then
    extract_text_from_pdf_bytes reader
  else if mime_type.startsWith "image/" then extract_text_from_image_bytes ocr
  else if ¬(extract_text_from_pdf_bytes reader = "") then extract_text_from_pdf_bytes reader
  else extract_text_from_image_bytes ocr

/-! ### Concrete scenario constants -/

/-- The concrete scenario text of the spec (§8). -/
def T4 : String :=
  "Cats are mammals. Dogs are mammals too. The sky is blue. Water boils at 100 degrees."

/-- A user prompt consisting of one highly repetitive sentence. -/
def P7 : String := "Zebras zebras zebras zebras."

/-- An extracted text of five sentences sharing the word "eat". -/
def X7 : String :=
  "Ants eat leaves. Bees eat yellow pollen. Cows eat green tasty grass. Dogs gnaw bones. Emus peck tiny seeds."

/-! ### Character-level facts about `normalize_word` -/

theorem char_le_iff_toNat {a b : Char} : a ≤ b ↔ a.toNat ≤ b.toNat := by
  rw [Char.le_def, UInt32.le_def, BitVec.le_def]
  exact Iff.rfl

theorem toNat_ofNat_valid (n : Nat) (h : n.isValidChar) : (Char.ofNat n).toNat = n := by
  rw [Char.ofNat, dif_pos h]
  rfl

/-- A lowercase ASCII letter or an ASCII digit, the character class the
spec allows inside `FrequencyModel` keys. -/
def isLowerDigit (c : Char) : Prop :=
  ('a' ≤ c ∧ c ≤ 'z') ∨ ('0' ≤ c ∧ c ≤ '9')

theorem lowerAscii_lowerDigit {c : Char} (h : isAsciiAlnum c = true) :
    isLowerDigit (lowerAscii c) := by
  simp only [isAsciiAlnum, Bool.or_eq_true, Bool.and_eq_true, decide_eq_true_eq] at h
  unfold lowerAscii
  rcases h with (⟨h1, h2⟩ | ⟨h1, h2⟩) | ⟨h1, h2⟩
  · rw [if_neg]
    · exact Or.inl ⟨h1, h2⟩
    · rintro ⟨hA, hZ⟩
      rw [char_le_iff_toNat] at h1 hZ
      revert h1 hZ
      show 97 ≤ c.toNat → c.toNat ≤ 90 → False
      omega
  · rw [char_le_iff_toNat] at h1 h2
    replace h1 : 65 ≤ c.toNat := h1
    replace h2 : c.toNat ≤ 90 := h2
    rw [if_pos]
    · have key : (Char.ofNat (c.toNat + 32)).toNat = c.toNat + 32 :=
        toNat_ofNat_valid _ (Or.inl (by omega))
      refine Or.inl ⟨?_, ?_⟩
      · rw [char_le_iff_toNat, key]
        show 97 ≤ c.toNat + 32
        omega
      · rw [char_le_iff_toNat, key]
        show c.toNat + 32 ≤ 122
        omega
    · constructor <;> rw [char_le_iff_toNat] <;> [exact h1; exact h2]
  · rw [if_neg]
    · exact Or.inr ⟨h1, h2⟩
    · rintro ⟨hA, _⟩
      rw [char_le_iff_toNat] at hA h2
      revert hA h2
      show c.toNat ≤ 57 → 65 ≤ c.toNat → False
      omega

theorem normalize_word_chars (w : String) :
    ∀ c ∈ (normalize_word w).data, isLowerDigit c := by
  intro c hc
  unfold normalize_word at hc
  simp only [String.data] at hc
  rcases List.mem_map.mp hc with ⟨c', hc', rfl⟩
  exact lowerAscii_lowerDigit (List.of_mem_filter hc')

/-- The `mkRat` in `sentence_score_tokens` is exactly the division
`score / (len(words) + 1)` performed by the source. -/
theorem sentence_score_tokens_eq_div (freq : List (String × ℕ)) (words : List String) :
    sentence_score_tokens freq words =
      (sentence_numerator freq words : ℚ) / (words.length + 1) := by
  unfold sentence_score_tokens
  rw [Rat.mkRat_eq_div]
  push_cast
  ring_nf

/-! ### Invariants of `build_word_freq` -/

theorem bump_invariant {P : String → Prop} (acc : List (String × ℕ)) (nw : String)
    (hacc : ∀ kv ∈ acc, P kv.1 ∧ 0 < kv.2) (hnw : P nw) :
    ∀ kv ∈ bump acc nw, P kv.1 ∧ 0 < kv.2 := by
  induction acc with
  | nil =>
    intro kv hkv
    simp only [bump, List.mem_singleton] at hkv
    subst hkv
    exact ⟨hnw, Nat.zero_lt_one⟩
  | cons hd tl ih =>
    intro kv hkv
    obtain ⟨k', v'⟩ := hd
    simp only [bump] at hkv
    by_cases h : k' = nw
    · rw [if_pos h] at hkv
      rcases List.mem_cons.mp hkv with rfl | htl
      · exact ⟨(hacc (k', v') (List.mem_cons_self _ _)).1, Nat.succ_pos _⟩
      · exact hacc kv (List.mem_cons_of_mem _ htl)
    · rw [if_neg h] at hkv
      rcases List.mem_cons.mp hkv with rfl | htl
      · exact hacc (k', v') (List.mem_cons_self _ _)
      · exact ih (fun kv h => hacc kv (List.mem_cons_of_mem _ h)) kv htl

theorem foldl_freq_invariant (stop : List String) (P : String → Prop)
    (hP : ∀ w, normalize_word w ≠ "" → normalize_word w ∉ stop → P (normalize_word w)) :
    ∀ (ws : List String) (acc : List (String × ℕ)),
      (∀ kv ∈ acc, P kv.1 ∧ 0 < kv.2) →
      ∀ kv ∈ ws.foldl
          (fun freq w =>
            let nw := normalize_word w
            if nw = "" then freq
            else if nw ∈ stop then freq
            else bump freq nw)
          acc,
        P kv.1 ∧ 0 < kv.2 := by
  intro ws
  induction ws with
  | nil => exact fun acc hacc kv hkv => hacc kv hkv
  | cons w ws ih =>
    intro acc hacc kv hkv
    rw [List.foldl_cons] at hkv
    refine ih _ ?_ kv hkv
    by_cases h1 : normalize_word w = ""
    · simpa [h1] using hacc
    · by_cases h2 : normalize_word w ∈ stop
      · simpa [h1, h2] using hacc
      · simpa [h1, h2] using bump_invariant acc _ hacc (hP w h1 h2)

theorem build_word_freq_invariant (stop : List String) (wt : String → List String)
    (text : String) :
    ∀ kv ∈ build_word_freq stop wt text,
      (kv.1 ∉ stop ∧ kv.1 ≠ "" ∧ ∀ c ∈ kv.1.data, isLowerDigit c) ∧ 0 < kv.2 := by
  intro kv hkv
  exact foldl_freq_invariant stop
    (fun k => k ∉ stop ∧ k ≠ "" ∧ ∀ c ∈ k.data, isLowerDigit c)
    (fun w h1 h2 => ⟨h2, h1, normalize_word_chars w⟩)
    (wt text) [] (by simp) kv hkv

theorem assocD_eq_default {l : List (String × ℕ)} {k : String}
    (h : ∀ kv ∈ l, kv.1 ≠ k) : assocD l k 0 = 0 := by
  induction l with
  | nil => rfl
  | cons hd tl ih =>
    obtain ⟨k', v'⟩ := hd
    simp only [assocD]
    rw [if_neg (h (k', v') (List.mem_cons_self _ _))]
    exact ih fun kv hkv => h kv (List.mem_cons_of_mem _ hkv)

/-- Normalized stopwords are absent from the frequency model, so looking
one up (as `score_sentences` does with `freq.get(nw, 0)`) yields `0`. -/
theorem freq_stopword_lookup (stop : List String) (wt : String → List String)
    (text : String) {k : String} (hk : k ∈ stop) :
    assocD (build_word_freq stop wt text) k 0 = 0 :=
  assocD_eq_default fun kv hkv he =>
    ((build_word_freq_invariant stop wt text kv hkv).1.1) (he ▸ hk)

/-! ### Selection machinery: the chosen sentences form a sublist -/

theorem score_sentences_map_fst (wt : String → List String) (sentences : List String)
    (freq : List (String × ℕ)) :
    (score_sentences wt sentences freq).map Prod.fst = List.range sentences.length := by
  unfold score_sentences
  rw [List.map_map]
  exact List.enum_map_fst sentences

theorem map_getD_shift (a : String) (tl : List String) (d : String) (is : List ℕ)
    (hpos : ∀ j ∈ is, 0 < j) :
    is.map (fun j => (a :: tl).getD j d) = (is.map (· - 1)).map (fun j => tl.getD j d) := by
  rw [List.map_map]
  apply List.map_congr_left
  intro j hj
  obtain ⟨j', rfl⟩ := Nat.exists_eq_succ_of_ne_zero (Nat.pos_iff_ne_zero.mp (hpos j hj))
  simp [List.getD_cons_succ]

theorem sorted_shift (is : List ℕ) (hs : is.Sorted (· < ·)) (hpos : ∀ j ∈ is, 0 < j) :
    (is.map (· - 1)).Sorted (· < ·) := by
  rw [List.Sorted, List.pairwise_map]
  exact hs.imp_of_mem fun {a b} ha hb hab => by
    have h1 := hpos a ha
    have h2 := hpos b hb
    show a - 1 < b - 1
    omega

theorem map_getD_sublist (l : List String) (d : String) :
    ∀ is : List ℕ, is.Sorted (· < ·) → (∀ i ∈ is, i < l.length) →
      List.Sublist (is.map fun i => l.getD i d) l := by
  induction l with
  | nil =>
    intro is _ hlt
    cases is with
    | nil => simp
    | cons i is' => exact absurd (hlt i (List.mem_cons_self _ _)) (by simp)
  | cons a tl ih =>
    intro is hs hlt
    cases is with
    | nil => simp
    | cons i is' =>
      have hs' : is'.Sorted (· < ·) := hs.of_cons
      have hrel : ∀ j ∈ is', i < j := List.rel_of_sorted_cons hs
      cases i with
      | zero =>
        have hpos : ∀ j ∈ is', 0 < j := fun j hj => hrel j hj
        rw [List.map_cons]
        have hshift := map_getD_shift a tl d is' hpos
        rw [show (a :: tl).getD 0 d = a from rfl, hshift]
        exact List.Sublist.cons₂ a (ih _ (sorted_shift is' hs' hpos)
          (fun j hj => by
            rcases List.mem_map.mp hj with ⟨j', hj', rfl⟩
            have h1 := hpos j' hj'
            have h2 : j' < (a :: tl).length := hlt j' (List.mem_cons_of_mem _ hj')
            simp only [List.length_cons] at h2
            omega))
      | succ i0 =>
        have hpos : ∀ j ∈ ((i0 + 1) :: is'), 0 < j := by
          intro j hj
          rcases List.mem_cons.mp hj with rfl | hj'
          · exact Nat.succ_pos _
          · exact Nat.lt_trans (Nat.succ_pos _) (hrel j hj')
        rw [map_getD_shift a tl d _ hpos]
        refine List.Sublist.cons a (ih _ ?_ ?_)
        · exact sorted_shift _ hs hpos
        · intro j hj
          rcases List.mem_map.mp hj with ⟨j', hj', rfl⟩
          have h1 := hpos j' hj'
          have h2 : j' < (a :: tl).length := hlt j' hj'
          simp only [List.length_cons] at h2
          omega

/-- Sorting (ascending) the first `k` indices of a duplicate-free index
list whose entries enumerate `0..n-1`, then reading the sentences off,
yields a sublist of the sentence list of length `min k n`. -/
theorem select_sublist (l : List String) (idxs : List ℕ) (k : ℕ)
    (hperm : idxs.Perm (List.range l.length)) :
    List.Sublist
        ((List.insertionSort (fun i j => i ≤ j) (idxs.take k)).map (fun i => l.getD i ""))
        l ∧
      ((List.insertionSort (fun i j => i ≤ j) (idxs.take k)).map
          (fun i => l.getD i "")).length = min k l.length := by
  have hnodup : idxs.Nodup := hperm.symm.nodup (List.nodup_range _)
  have htake : List.Sublist (idxs.take k) idxs := List.take_sublist k idxs
  have hnodup_take : (idxs.take k).Nodup := List.Nodup.sublist htake hnodup
  have hperm_sort : (List.insertionSort (fun i j => i ≤ j) (idxs.take k)).Perm (idxs.take k) :=
    List.perm_insertionSort _ _
  have hnodup_sort : (List.insertionSort (fun i j => i ≤ j) (idxs.take k)).Nodup :=
    hperm_sort.symm.nodup hnodup_take
  have hsorted_le : (List.insertionSort (fun i j => i ≤ j) (idxs.take k)).Sorted (· ≤ ·) :=
    List.sorted_insertionSort _ _
  have hsorted_lt : (List.insertionSort (fun i j => i ≤ j) (idxs.take k)).Sorted (· < ·) :=
    hsorted_le.lt_of_le hnodup_sort
  have hmem : ∀ i ∈ List.insertionSort (fun i j => i ≤ j) (idxs.take k), i < l.length := by
    intro i hi
    have h1 : i ∈ idxs.take k := hperm_sort.mem_iff.mp hi
    have h2 : i ∈ idxs := htake.mem h1
    exact List.mem_range.mp (hperm.mem_iff.mp h2)
  refine ⟨map_getD_sublist l "" _ hsorted_lt hmem, ?_⟩
  rw [List.length_map, hperm_sort.length_eq, List.length_take, hperm.length_eq,
    List.length_range]

/-- In the scoring branch (long text, more sentences than the bound,
non-empty frequency model) and in the empty-model fallback alike, the
summary is the blank-line join of a sublist of the sentence list of length
`min max_sentences n`. -/
theorem summarize_selection (st wt : String → List String) (stop : List String)
    (text : String) (k : ℕ)
    (hlong : ¬(text = "" ∨ (strip text).length < 50))
    (hgt : ¬((st text).length ≤ k)) :
    ∃ sel, List.Sublist sel (st text) ∧ sel.length = min k (st text).length ∧
      extractive_summarize st wt stop text k = String.intercalate "\n\n" sel := by
  by_cases hfreq : build_word_freq stop wt text = []
  · refine ⟨(st text).take k, List.take_sublist _ _, List.length_take _ _, ?_⟩
    unfold extractive_summarize
    rw [if_neg hlong, if_neg hgt, if_pos hfreq]
  · have hperm :
        (List.insertionSort
            (fun i j =>
              assocD (score_sentences wt (st text) (build_word_freq stop wt text)) j 0 ≤
                assocD (score_sentences wt (st text) (build_word_freq stop wt text)) i 0)
            ((score_sentences wt (st text) (build_word_freq stop wt text)).map
              Prod.fst)).Perm (List.range (st text).length) := by
      refine (List.perm_insertionSort _ _).trans ?_
      rw [score_sentences_map_fst]
    obtain ⟨hsub, hlen⟩ := select_sublist (st text) _ k hperm
    refine ⟨_, hsub, hlen, ?_⟩
    unfold extractive_summarize
    rw [if_neg hlong, if_neg hgt, if_neg hfreq]

/-- Unfolding of `extract_text_from_pdf_bytes` on a successful reader. -/
theorem extract_text_from_pdf_bytes_ok (pages : List (Except String (Option String))) :
    extract_text_from_pdf_bytes (.ok pages) =
      strip (String.intercalate "\n"
        (List.filter (fun t => ¬(t = ""))
          (pages.map (fun p =>
            match p with
            | .error _ => ""
            | .ok none => ""
            | .ok (some t) => t)))) := rfl

/-! ### Claims -/

/-- C3: for every text whose trimmed length is strictly less than 50
characters and every `max_sentences ≥ 1`, the summarizer returns the
trimmed input text verbatim (no segmentation, scoring or selection). -/
theorem claim3_short_passthrough (st wt : String → List String) (stop : List String)
    (text : String) (k : ℕ) (hk : 1 ≤ k) (hshort : (strip text).length < 50) :
    extractive_summarize st wt stop text k = strip text := by
  unfold extractive_summarize
  rw [if_pos (Or.inr hshort)]

theorem claim3_short_passthrough_witness :
    (strip "Too short to summarize.").length < 50 ∧
      extractive_summarize sent_tokenize_model word_tokenize_model STOPWORDS_model
          "Too short to summarize." 4 =
        strip "Too short to summarize." :=
  ⟨by decide,
    claim3_short_passthrough sent_tokenize_model word_tokenize_model STOPWORDS_model
      "Too short to summarize." 4 (by decide) (by decide)⟩

/-- C1 fails as stated ("for every input text"): on the 5-character text
"A. B." with `max_sentences = 1` the code takes the short-input passthrough
branch and returns "A. B." verbatim, which is not the blank-line join of
any subsequence of the segmented sentence sequence ["A.", "B."], although
the input segments into 2 > 1 sentences. -/
theorem claim1_counterexample :
    ¬∃ sel, List.Sublist sel (sent_tokenize_model "A. B.") ∧
        extractive_summarize sent_tokenize_model word_tokenize_model STOPWORDS_model
            "A. B." 1 =
          String.intercalate "\n\n" sel := by
  rintro ⟨sel, hsub, heq⟩
  have hmem : sel ∈ (sent_tokenize_model "A. B.").sublists := List.mem_sublists.mpr hsub
  have hsl : (sent_tokenize_model "A. B.").sublists = [[], ["A."], ["B."], ["A.", "B."]] := by
    decide
  rw [hsl] at hmem
  have hout :
      extractive_summarize sent_tokenize_model word_tokenize_model STOPWORDS_model
        "A. B." 1 = "A. B." := by decide
  rw [hout] at heq
  simp only [List.mem_cons, List.mem_singleton, List.not_mem_nil, or_false] at hmem
  rcases hmem with rfl | rfl | rfl | rfl <;> exact absurd heq (by decide)

/-- C1, amended: for every input text whose *trimmed length is at least 50*
and every `max_sentences ≥ 1`, the returned summary is the blank-line join
of a subsequence of the sentence sequence produced by segmenting the input,
in original relative order, regardless of score ranking order (texts below
the 50-character threshold are instead returned verbatim, untouched). -/
theorem claim1_amended_order_preservation (st wt : String → List String)
    (stop : List String) (text : String) (k : ℕ) (hk : 1 ≤ k)
    (hlen : 50 ≤ (strip text).length) :
    ∃ sel, List.Sublist sel (st text) ∧
      extractive_summarize st wt stop text k = String.intercalate "\n\n" sel := by
  have hlong : ¬(text = "" ∨ (strip text).length < 50) := by
    rintro (rfl | hlt)
    · revert hlen
      decide
    · omega
  by_cases hle : (st text).length ≤ k
  · refine ⟨st text, List.Sublist.refl _, ?_⟩
    unfold extractive_summarize
    rw [if_neg hlong, if_pos hle]
  · obtain ⟨sel, hsub, _, heq⟩ := summarize_selection st wt stop text k hlong hle
    exact ⟨sel, hsub, heq⟩

theorem claim1_amended_order_preservation_witness :
    ∃ sel, List.Sublist sel (sent_tokenize_model T4) ∧
      extractive_summarize sent_tokenize_model word_tokenize_model STOPWORDS_model T4 2 =
        String.intercalate "\n\n" sel :=
  claim1_amended_order_preservation sent_tokenize_model word_tokenize_model STOPWORDS_model
    T4 2 (by decide) (by decide)

/-- C2 fails as stated ("for every input text"): the 5-character text
"A. B." segments into 2 sentences, so with `max_sentences = 2` the claim
demands all sentences joined by a blank line ("A.\n\nB."), but the code
takes the short-input passthrough branch and returns "A. B." instead. -/
theorem claim2_counterexample :
    (sent_tokenize_model "A. B.").length ≤ 2 ∧
      extractive_summarize sent_tokenize_model word_tokenize_model STOPWORDS_model
          "A. B." 2 ≠
        String.intercalate "\n\n" (sent_tokenize_model "A. B.") := by
  constructor
  · decide
  · decide

/-- C2, amended: for every input text whose *trimmed length is at least 50*
and every `max_sentences ≥ 1`: when the input has `max_sentences` or fewer
sentences all sentences are returned joined by a blank line, and when it
has more the summary is the blank-line join of at most `max_sentences`
sentences (texts below the 50-character threshold are instead returned
verbatim, untouched). -/
theorem claim2_amended_bound_respect (st wt : String → List String)
    (stop : List String) (text : String) (k : ℕ) (hk : 1 ≤ k)
    (hlen : 50 ≤ (strip text).length) :
    ((st text).length ≤ k →
      extractive_summarize st wt stop text k = String.intercalate "\n\n" (st text)) ∧
      (k < (st text).length →
        ∃ sel, List.Sublist sel (st text) ∧ sel.length ≤ k ∧
          extractive_summarize st wt stop text k = String.intercalate "\n\n" sel) := by
  have hlong : ¬(text = "" ∨ (strip text).length < 50) := by
    rintro (rfl | hlt)
    · revert hlen
      decide
    · omega
  constructor
  · intro hle
    unfold extractive_summarize
    rw [if_neg hlong, if_pos hle]
  · intro hgt
    obtain ⟨sel, hsub, hlenth, heq⟩ :=
      summarize_selection st wt stop text k hlong (Nat.not_le.mpr hgt)
    exact ⟨sel, hsub, hlenth ▸ Nat.min_le_left _ _, heq⟩

theorem claim2_amended_bound_respect_witness :
    ∃ sel, List.Sublist sel (sent_tokenize_model T4) ∧ sel.length ≤ 2 ∧
      extractive_summarize sent_tokenize_model word_tokenize_model STOPWORDS_model T4 2 =
        String.intercalate "\n\n" sel :=
  (claim2_amended_bound_respect sent_tokenize_model word_tokenize_model STOPWORDS_model
      T4 2 (by decide) (by decide)).2 (by decide)

/-- C4 fails as stated: on the scenario text with `max_sentences = 2` the
code does NOT return the two "mammals" sentences.  The scores are
3/5, 1/2, 1/3, 4/7 for sentences 0..3 — "Water boils at 100 degrees."
(four content words, score 4/7) outranks "Dogs are mammals too."
(score 1/2) — so the top two are sentences 0 and 3, not 0 and 1. -/
theorem claim4_counterexample :
    extractive_summarize sent_tokenize_model word_tokenize_model STOPWORDS_model T4 2 ≠
      "Cats are mammals.\n\nDogs are mammals too." := by
  decide

/-- C4, amended: on the scenario text with `max_sentences = 2` the
summarizer selects the first and the fourth sentence (scores 3/5 and 4/7;
the "Dogs" sentence only scores 1/2), returning
"Cats are mammals.\n\nWater boils at 100 degrees." in original order. -/
theorem claim4_amended_scenario :
    sent_tokenize_model T4 =
        ["Cats are mammals.", "Dogs are mammals too.", "The sky is blue.",
          "Water boils at 100 degrees."] ∧
      extractive_summarize sent_tokenize_model word_tokenize_model STOPWORDS_model T4 2 =
        "Cats are mammals.\n\nWater boils at 100 degrees." := by
  constructor
  · decide
  · decide

/-- C5: `score_sentences` assigns each sentence index the sum of the
frequency-model counts of its normalized tokens (0 for tokens unknown to
the model) divided by `(token count + 1)`; a sentence with zero tokens
scores 0, every score is non-negative, and the index set is exactly the
contiguous range `0..n-1` (one entry per sentence). -/
theorem claim5_sentence_scores (wt : String → List String) (sentences : List String)
    (freq : List (String × ℕ)) :
    (score_sentences wt sentences freq).map Prod.fst = List.range sentences.length ∧
      (score_sentences wt sentences freq).length = sentences.length ∧
      (∀ p ∈ score_sentences wt sentences freq, 0 ≤ p.2) ∧
      (∀ i : Fin sentences.length,
        (i.1, (sentence_numerator freq (wt (sentences.get i)) : ℚ) /
            ((wt (sentences.get i)).length + 1)) ∈ score_sentences wt sentences freq) ∧
      (∀ i : Fin sentences.length, wt (sentences.get i) = [] →
        (i.1, (0 : ℚ)) ∈ score_sentences wt sentences freq) := by
  have hmem : ∀ i : Fin sentences.length, (i.1, sentences.get i) ∈ sentences.enum := by
    intro i
    rw [List.mem_enum_iff_getElem?]
    simp [List.getElem?_eq_getElem i.isLt]
  refine ⟨score_sentences_map_fst wt sentences freq, ?_, ?_, ?_, ?_⟩
  · unfold score_sentences
    rw [List.length_map, List.enum_length]
  · intro p hp
    unfold score_sentences at hp
    rcases List.mem_map.mp hp with ⟨⟨i, s⟩, _, rfl⟩
    show 0 ≤ sentence_score wt freq s
    rw [sentence_score, sentence_score_tokens_eq_div]
    positivity
  · intro i
    unfold score_sentences
    refine List.mem_map.mpr ⟨(i.1, sentences.get i), hmem i, ?_⟩
    show _ = (i.1, (sentence_numerator freq (wt (sentences.get i)) : ℚ) /
      ((wt (sentences.get i)).length + 1))
    rw [Prod.ext_iff]
    exact ⟨rfl, sentence_score_tokens_eq_div freq (wt (sentences.get i))⟩
  · intro i hempty
    unfold score_sentences
    refine List.mem_map.mpr ⟨(i.1, sentences.get i), hmem i, ?_⟩
    rw [Prod.ext_iff]
    refine ⟨rfl, ?_⟩
    show sentence_score wt freq (sentences.get i) = 0
    rw [sentence_score, hempty, sentence_score_tokens_eq_div]
    simp [sentence_numerator]

theorem claim5_sentence_scores_witness : (0 : ℚ) ≤ mkRat 3 5 :=
  (claim5_sentence_scores word_tokenize_model (sent_tokenize_model T4)
      (build_word_freq STOPWORDS_model word_tokenize_model T4)).2.2.1
    (0, mkRat 3 5) (by decide)

/-- C6: every key of the frequency model built from any text is a
non-stopword, non-empty, and consists only of lowercase ASCII letters and
digits (no uppercase, no punctuation — so no stopword sneaks in through
casing or surrounding punctuation), and every key maps to a strictly
positive count. -/
theorem claim6_freq_model_invariant (stop : List String) (wt : String → List String)
    (text : String) (k : String) (v : ℕ) (hkv : (k, v) ∈ build_word_freq stop wt text) :
    k ∉ stop ∧ k ≠ "" ∧ (∀ c ∈ k.data, isLowerDigit c) ∧ 0 < v := by
  obtain ⟨⟨h1, h2, h3⟩, h4⟩ := build_word_freq_invariant stop wt text (k, v) hkv
  exact ⟨h1, h2, h3, h4⟩

theorem claim6_freq_model_invariant_witness :
    "mammals" ∉ STOPWORDS_model ∧ "mammals" ≠ "" ∧
      (∀ c ∈ "mammals".data, isLowerDigit c) ∧ 0 < 2 :=
  claim6_freq_model_invariant STOPWORDS_model word_tokenize_model T4 "mammals" 2 (by decide)

set_option maxRecDepth 80000 in
/-- C7 fails in its last part: prompt sentences ARE eligible for
selection.  With prompt "Zebras zebras zebras zebras." (one sentence,
score 8/3, the maximum) and a five-sentence extracted text, the prompt's
sentence is selected and returned as the first summary sentence; the
second conjunct identifies sentence 0 of the combined text as exactly the
prompt's sentence. -/
theorem claim7_counterexample :
    summarize_route_summary sent_tokenize_model word_tokenize_model STOPWORDS_model
        (some P7) X7 =
      "Zebras zebras zebras zebras.\n\nAnts eat leaves.\n\nBees eat yellow pollen.\n\nCows eat green tasty grass." ∧
      sent_tokenize_model (combined_text (some P7) X7) =
        "Zebras zebras zebras zebras." :: sent_tokenize_model X7 := by
  constructor
  · decide
  · decide

set_option maxRecDepth 80000 in
/-- C7, amended: a non-empty prompt is prepended to the extracted text
separated by a blank line before summarization, so its tokens contribute
to the frequency model and influence sentence scores; its sentences are
segmented together with the extracted text and are eligible for selection
into the returned summary like any other sentence (witnessed by a summary
that begins with the prompt itself). -/
theorem claim7_amended_prompt_eligible :
    (∀ (st wt : String → List String) (stop : List String) (p x : String), p ≠ "" →
        summarize_route_summary st wt stop (some p) x =
          extractive_summarize st wt stop (p ++ "\n\n" ++ x) 4) ∧
      ∃ rest,
        summarize_route_summary sent_tokenize_model word_tokenize_model STOPWORDS_model
            (some P7) X7 =
          P7 ++ rest := by
  constructor
  · intro st wt stop p x hp
    unfold summarize_route_summary combined_text
    show extractive_summarize st wt stop (if p = "" then x else p ++ "\n\n" ++ x) 4 =
      extractive_summarize st wt stop (p ++ "\n\n" ++ x) 4
    rw [if_neg hp]
  · exact ⟨"\n\nAnts eat leaves.\n\nBees eat yellow pollen.\n\nCows eat green tasty grass.",
      by decide⟩

set_option maxRecDepth 80000 in
theorem claim7_amended_prompt_eligible_witness :
    summarize_route_summary sent_tokenize_model word_tokenize_model STOPWORDS_model
        (some P7) X7 =
      extractive_summarize sent_tokenize_model word_tokenize_model STOPWORDS_model
        (P7 ++ "\n\n" ++ X7) 4 :=
  claim7_amended_prompt_eligible.1 sent_tokenize_model word_tokenize_model STOPWORDS_model
    P7 X7 (by decide)

/-- C8: extraction never propagates an internal failure.  A failing PDF
reader makes the whole cascade fall through to image/OCR extraction for
every declared media type; a failing page inside a readable PDF behaves
exactly as a page with no text (the remaining pages still contribute);
and a failing OCR engine yields the empty extraction. -/
theorem claim8_extraction_never_fails :
    (∀ (mime e : String) (ocr : Except String String),
        extract_text mime (.error e) ocr = extract_text_from_image_bytes ocr) ∧
      (∀ (ps₁ ps₂ : List (Except String (Option String))) (e : String),
        extract_text_from_pdf_bytes (.ok (ps₁ ++ .error e :: ps₂)) =
          extract_text_from_pdf_bytes (.ok (ps₁ ++ .ok none :: ps₂))) ∧
      ∀ e : String, extract_text_from_image_bytes (.error e) = "" := by
  refine ⟨?_, ?_, fun e => rfl⟩
  · intro mime e ocr
    have hpdf : extract_text_from_pdf_bytes (.error e) = "" := rfl
    unfold extract_text
    rw [hpdf]
    simp
  · intro ps₁ ps₂ e
    rw [extract_text_from_pdf_bytes_ok, extract_text_from_pdf_bytes_ok,
      List.map_append, List.map_append, List.map_cons, List.map_cons]

/-- C9: whenever the route has non-empty extracted text, the summary it
returns is `extractive_summarize` of the prompt/extracted combination with
the bound fixed to 4 (no request input selects another bound); in
particular, once the combined text passes the 50-character threshold, the
response consists of at most 4 sentences of the combined text in original
order. -/
theorem claim9_route_bound_four (st wt : String → List String) (stop : List String)
    (prompt : Option String) (extracted : String) (hx : extracted ≠ "") :
    summarize_route_summary st wt stop prompt extracted =
        extractive_summarize st wt stop (combined_text prompt extracted) 4 ∧
      (50 ≤ (strip (combined_text prompt extracted)).length →
        ∃ sel, List.Sublist sel (st (combined_text prompt extracted)) ∧ sel.length ≤ 4 ∧
          summarize_route_summary st wt stop prompt extracted =
            String.intercalate "\n\n" sel) := by
  refine ⟨rfl, ?_⟩
  intro hlen
  have hlong :
      ¬(combined_text prompt extracted = "" ∨
        (strip (combined_text prompt extracted)).length < 50) := by
    rintro (hE | hlt)
    · rw [hE] at hlen
      revert hlen
      decide
    · omega
  by_cases hle : (st (combined_text prompt extracted)).length ≤ 4
  · refine ⟨st (combined_text prompt extracted), List.Sublist.refl _, hle, ?_⟩
    unfold summarize_route_summary extractive_summarize
    rw [if_neg hlong, if_pos hle]
  · obtain ⟨sel, hsub, hlenth, heq⟩ :=
      summarize_selection st wt stop (combined_text prompt extracted) 4 hlong hle
    exact ⟨sel, hsub, hlenth ▸ Nat.min_le_left _ _, heq⟩

set_option maxRecDepth 80000 in
theorem claim9_route_bound_four_witness :
    ∃ sel, List.Sublist sel (sent_tokenize_model (combined_text (some P7) X7)) ∧
      sel.length ≤ 4 ∧
      summarize_route_summary sent_tokenize_model word_tokenize_model STOPWORDS_model
          (some P7) X7 =
        String.intercalate "\n\n" sel :=
  (claim9_route_bound_four sent_tokenize_model word_tokenize_model STOPWORDS_model
      (some P7) X7 (by decide)).2 (by decide)

/-- C10: the scoring denominator counts every raw token produced by the
word tokenizer (the score is numerator / (token count + 1)); tokens that
normalize to the empty string, and stopword tokens (absent from any built
frequency model), contribute 0 to the numerator; consequently appending a
punctuation-only token to a sentence strictly decreases its score whenever
that score is positive. -/
theorem claim10_raw_token_denominator (stop : List String) (wt : String → List String)
    (text : String) (freq : List (String × ℕ)) (ws : List String) (t : String) :
    (sentence_score_tokens freq ws =
        (sentence_numerator freq ws : ℚ) / (ws.length + 1)) ∧
      ((normalize_word t = "" ∨ normalize_word t ∈ stop) →
        sentence_numerator (build_word_freq stop wt text) (ws ++ [t]) =
          sentence_numerator (build_word_freq stop wt text) ws) ∧
      (normalize_word t = "" → 0 < sentence_score_tokens freq ws →
        sentence_score_tokens freq (ws ++ [t]) < sentence_score_tokens freq ws) := by
  refine ⟨sentence_score_tokens_eq_div freq ws, ?_, ?_⟩
  · intro ht
    unfold sentence_numerator
    rw [List.map_append, List.sum_append]
    rcases ht with ht | ht
    · simp [ht]
    · by_cases hemp : normalize_word t = ""
      · simp [hemp]
      · simp [hemp, freq_stopword_lookup stop wt text ht]
  · intro ht hpos
    have hnum : sentence_numerator freq (ws ++ [t]) = sentence_numerator freq ws := by
      unfold sentence_numerator
      rw [List.map_append, List.sum_append]
      simp [ht]
    rw [sentence_score_tokens_eq_div] at hpos
    rw [sentence_score_tokens_eq_div, sentence_score_tokens_eq_div, hnum]
    have hN : 0 < (sentence_numerator freq ws : ℚ) := by
      rcases Nat.eq_zero_or_pos (sentence_numerator freq ws) with h0 | hp
      · rw [h0] at hpos
        norm_num at hpos
      · exact_mod_cast hp
    apply div_lt_div_of_pos_left hN
    · positivity
    · rw [List.length_append]
      push_cast
      simp

theorem claim10_raw_token_denominator_witness :
    sentence_score_tokens [("ants", 3)] (["Ants"] ++ ["!"]) <
      sentence_score_tokens [("ants", 3)] ["Ants"] :=
  (claim10_raw_token_denominator [] word_tokenize_model "" [("ants", 3)] ["Ants"] "!").2.2
    (by decide) (by decide)

end DocUpdater
